import Mathlib

/-!
Verification of the header-schema matching core of `src/Streamlit_2.py`.

Strings are embedded as `List Char`.  Python's whitespace class (the one used
by `str.strip()` and by `\s` in `re` patterns over `str`) is embedded as the
decidable predicate `isPyWS`.  Case mapping is embedded on the ASCII range
(the only cased characters exercised by the program's schema catalog).
Python sets of strings are embedded as `Finset (List Char)`; Python's
insertion-ordered `dict` catalog of schemas is embedded as an association
list, preserving declaration order.  Fallible reads (`read_headers`) are
embedded as a row provider returning an `Option` row and an `Option` error.
-/

namespace HeaderCheck

/-! ### Definitions -/

/-- A Python string: a list of characters. -/
abbrev Label := List Char

/-- Embed a Lean string literal as a `Label`. -/
def strL (s : String) : Label := s.toList

/-- Python's whitespace class over `str`: the characters matched by `\s` in a
`re` pattern and stripped by `str.strip()`. -/
def isPyWS (c : Char) : Bool :=
  c = Char.ofNat 9 || c = Char.ofNat 10 || c = Char.ofNat 11 || c = Char.ofNat 12 ||
  c = Char.ofNat 13 || (28 ≤ c.toNat && c.toNat ≤ 31) || c = ' ' || c = Char.ofNat 0x85 ||
  c = Char.ofNat 0xA0 || c = Char.ofNat 0x1680 ||
  (0x2000 ≤ c.toNat && c.toNat ≤ 0x200A) || c = Char.ofNat 0x2028 || c = Char.ofNat 0x2029 ||
  c = Char.ofNat 0x202F || c = Char.ofNat 0x205F || c = Char.ofNat 0x3000

/-- The character class `[\s_]` of the first `re.sub` in `normalize`. -/
def isWsU (c : Char) : Bool := isPyWS c || c = '_'

/-- The characters removed by `normalize`: straight double quote, straight
single quote, left/right curly double quotes, asterisk. -/
def isQuoteStar (c : Char) : Bool :=
  c = Char.ofNat 34 || c = Char.ofNat 39 || c = Char.ofNat 0x201C ||
  c = Char.ofNat 0x201D || c = Char.ofNat 42

/-- Python `str.lower` restricted to the ASCII case table. -/
def toLowerCh (c : Char) : Char :=
  if 65 ≤ c.toNat && c.toNat ≤ 90 then Char.ofNat (c.toNat + 32) else c

/-- Drop trailing characters satisfying `p`. -/
def dropTrail (p : Char → Bool) (l : List Char) : List Char :=
  (l.reverse.dropWhile p).reverse

/-- Python `str.strip()`: drop leading and trailing whitespace. -/
def stripL (l : List Char) : List Char := dropTrail isPyWS (l.dropWhile isPyWS)

/-- Worker for `re.sub("[class]+", " ", s)`: each maximal run of characters
satisfying `p` becomes a single space.  The flag records whether we are
inside a run already begun. -/
def collapseAux (p : Char → Bool) : List Char → Bool → List Char
  | [], _ => []
  | c :: rest, inRun =>
    if p c then
      if inRun then collapseAux p rest true else ' ' :: collapseAux p rest true
    else c :: collapseAux p rest false

/-- `re.sub("[class]+", " ", s)` for the character class decided by `p`. -/
def collapseWith (p : Char → Bool) (l : List Char) : List Char := collapseAux p l false

/-- The `normalize` function of `src/Streamlit_2.py` (lines 113-131):
strip, lower-case, collapse whitespace-or-underscore runs to one space,
remove quotes and asterisks, collapse whitespace again and strip. -/
def normalize (s : Label) : Label :=
  let s1 := stripL s
  let s2 := s1.map toLowerCh
  let s3 := collapseWith isWsU s2
  let s4 := s3.filter fun c => !(isQuoteStar c)
  stripL (collapseWith isPyWS s4)

/-- Replace U+00A0 (non-breaking space) with U+0020 (space). -/
def replNB (c : Char) : Char := if c = Char.ofNat 0xA0 then ' ' else c

/-- Modelled from the spec: the seven-step normalization pipeline stated in
the specification, in its order: (1) coerce to string (identity on strings);
(2) replace U+00A0 with U+0020; (3) trim; (4) lower-case; (5) replace every
maximal run of whitespace-or-underscore characters with one space; (6) remove
straight double quotes, straight single quotes, curly double quotes and
asterisks; (7) collapse remaining whitespace runs and trim again. -/
def normalize_spec (s : Label) : Label :=
  let s0 := s.map replNB
  let s1 := stripL s0
  let s2 := s1.map toLowerCh
  let s3 := collapseWith isWsU s2
  let s4 := s3.filter fun c => !(isQuoteStar c)
  stripL (collapseWith isPyWS s4)

/-- The sentinel used by the positional loop of `compare_header_lists` for an
out-of-range index. -/
def noneLabel : Label := strL "(none)"

/-- The return value of `compare_header_lists`: match flag, position-wise
diff lines, missing set, unexpected set, positional mismatch count. -/
structure CompareOut where
  is_match : Bool
  diffs : List Label
  missing : Finset Label
  unexpected : Finset Label
  pos_mismatch_count : Nat
deriving DecidableEq

/-- One line of the position-wise diff:
`f"{status} Index {i}: expected **{exp}**, got **{act}**"`. -/
def diffLine (ok : Bool) (i : Nat) (e a : Label) : Label :=
  (if ok then strL "✅" else strL "❌") ++ strL " Index " ++ (Nat.repr i).toList ++
    strL ": expected **" ++ e ++ strL "**, got **" ++ a ++ strL "**"

/-- One iteration of the positional loop (lines 174-181): look up position
`i` in both rows, falling back to the "(none)" sentinel past the end,
compare under `eqf`, and record the pass flag with the diff line. -/
def posEntry (eqf : Label → Label → Bool) (expected act : List Label) (i : Nat) :
    Bool × Label :=
  let e := expected.getD i noneLabel
  let a := act.getD i noneLabel
  let ok := eqf e a
  (ok, diffLine ok i e a)

/-- The `compare_header_lists` function of `src/Streamlit_2.py`
(lines 147-187).  `actual = none` embeds Python's `actual is None`. -/
def compare_header_lists (expected : List Label) (actual : Option (List Label))
    (mode : Label) : CompareOut :=
  match actual with
  | none => ⟨false, [strL "❌ Unable to read headers."], ∅, ∅, 10 ^ 9⟩
  | some act =>
    let exact := (strL "Exact").isPrefixOf mode
    let eqf : Label → Label → Bool :=
      fun a b => if exact then a == b else normalize a == normalize b
    let exp_for_sets := if exact then expected else expected.map normalize
    let act_for_sets := if exact then act else act.map normalize
    let max_len := max expected.length act.length
    let entries := (List.range max_len).map (posEntry eqf expected act)
    let pos_mismatch_count := (entries.filter fun pr => !pr.1).length
    let diffs := entries.map fun pr => pr.2
    let missing := exp_for_sets.toFinset \ act_for_sets.toFinset
    let unexpected := act_for_sets.toFinset \ exp_for_sets.toFinset
    let is_match := (pos_mismatch_count == 0) && (missing.card == 0) && (unexpected.card == 0)
    ⟨is_match, diffs, missing, unexpected, pos_mismatch_count⟩

/-- The `score_mismatch` function of `src/Streamlit_2.py` (lines 189-191). -/
def score_mismatch (missing unexpected : Finset Label) (pos_mismatch_count : Nat) : Nat :=
  missing.card + unexpected.card + pos_mismatch_count

/-- The mismatch score of a comparison result, as computed by the caller via
`score_mismatch(missing, unexpected, pos_mis)`. -/
def scoreOut (r : CompareOut) : Nat :=
  score_mismatch r.missing r.unexpected r.pos_mismatch_count

/-- The Exact branch of `compare_header_lists` (raw string equality, raw
sets), as a standalone function. -/
def compare_exact (expected act : List Label) : CompareOut :=
  let eqf : Label → Label → Bool := fun a b => a == b
  let max_len := max expected.length act.length
  let entries := (List.range max_len).map (posEntry eqf expected act)
  let pos_mismatch_count := (entries.filter fun pr => !pr.1).length
  let diffs := entries.map fun pr => pr.2
  let missing := expected.toFinset \ act.toFinset
  let unexpected := act.toFinset \ expected.toFinset
  let is_match := (pos_mismatch_count == 0) && (missing.card == 0) && (unexpected.card == 0)
  ⟨is_match, diffs, missing, unexpected, pos_mismatch_count⟩

/-- The Lenient branch of `compare_header_lists` (normalized equality,
normalized sets), as a standalone function. -/
def compare_lenient (expected act : List Label) : CompareOut :=
  let eqf : Label → Label → Bool := fun a b => normalize a == normalize b
  let exp_for_sets := expected.map normalize
  let act_for_sets := act.map normalize
  let max_len := max expected.length act.length
  let entries := (List.range max_len).map (posEntry eqf expected act)
  let pos_mismatch_count := (entries.filter fun pr => !pr.1).length
  let diffs := entries.map fun pr => pr.2
  let missing := exp_for_sets.toFinset \ act_for_sets.toFinset
  let unexpected := act_for_sets.toFinset \ exp_for_sets.toFinset
  let is_match := (pos_mismatch_count == 0) && (missing.card == 0) && (unexpected.card == 0)
  ⟨is_match, diffs, missing, unexpected, pos_mismatch_count⟩

/-- The "Exact" option of the `match_mode` radio widget. -/
def exactMode : Label := strL "Exact (case & spaces must match)"

/-- The "Lenient" option of the `match_mode` radio widget. -/
def lenientMode : Label := strL "Lenient (ignores case/extra spaces/underscores/newlines/quotes/*)"

/-- The module-level `SCHEMAS` catalog of `src/Streamlit_2.py` (lines 21-93),
in declaration order. -/
def SCHEMAS : List (Label × List Label) :=
  [(strL "Schema 1",
    [strL "S. No.", strL "Plant", strL "Process", strL "Shop Type", strL "Shop\nCode",
     strL "Shop Description", strL "Cost Centre", strL "Line", strL "Line type",
     strL "Iot Status", strL "Capacity per shift ( As per prod)", strL "Logical PSL",
     strL "Physical PSL **", strL "Operational Shifts", strL "Details of Deviation in Shift *",
     strL "No of Machines", strL "Category\n(4W/2W)", strL "Part No/\nModel No",
     strL "Part Name/\nModel Description", strL "Gross RM Weight\n(in kg/ Part)",
     strL "Broad Model", strL "Engine/TM", strL "Financial Year", strL "Month",
     strL "OK Volume", strL "Rejection Volume", strL "OEE/Line Efficiency As per Production",
     strL "Remarks ( If Any)"]),
   (strL "Schema 2",
    [strL "S. No.", strL "Plant", strL "Maint Dept Code", strL "Maint Dept Description",
     strL "Cost Centre", strL "Type", strL "Shop Coverage*", strL "Remarks"]),
   (strL "Schema 3",
    [strL "S. No.", strL "Plant", strL "Process", strL "Shop Type",
     strL "Shop\nCode/Maint Dept", strL "Shop Description", strL "Cost Centre", strL "Month",
     strL "Activity Category", strL "Sub Activity*", strL "Manpower Grade", strL "Headcount"]),
   (strL "Schema 4",
    [strL "S. No.", strL "Plant", strL "Process", strL "Shop", strL "Line", strL "Line Type",
     strL "Model", strL "Fuel Type", strL "Part No/\nModel No",
     strL "Part Name/\nModel Description", strL "Annual Capacity as per OEE*",
     strL "SMM\nPer Part**", strL "Takt Time", strL "Cycle Time", strL "OEE Factor (%)"])]

/-- One candidate comparison made during a sheet scan: which header-row
offset, which schema, the headers that were read, and the comparison output. -/
structure Cand where
  offset : Nat
  schema_name : Label
  headers : List Label
  out : CompareOut
deriving DecidableEq

/-- Score of a candidate, as fed to the best-candidate comparison. -/
def scoreOf (c : Cand) : Nat := scoreOut c.out

/-- The running `best` dictionary of `evaluate_sheet_against_schemas`
(line 227). -/
structure Best where
  schema : Option Label
  row : Option Nat
  score : Nat
  diffs : List Label
  missing : Finset Label
  unexpected : Finset Label
  headers : Option (List Label)
deriving DecidableEq

/-- The initial `best` value: no schema, no row, score `10**9`. -/
def initBest : Best := ⟨none, none, 10 ^ 9, [], ∅, ∅, none⟩

/-- The `best` value produced by recording candidate `c`. -/
def mkBest (c : Cand) : Best :=
  ⟨some c.schema_name, some c.offset, scoreOf c, c.out.diffs, c.out.missing,
   c.out.unexpected, some c.headers⟩

/-- The best-candidate update of lines 257-268: replace the running best
exactly when the new candidate's score is strictly lower. -/
def bestUpdate (best : Best) (c : Cand) : Best :=
  if scoreOf c < best.score then mkBest c else best

/-- The `result` dictionary returned by `evaluate_sheet_against_schemas`. -/
structure ScanResult where
  sheet_name : Label
  matched : Bool
  matched_schema : Option Label
  header_row : Option Nat
  actual_headers : Option (List Label)
  diffs : List Label
  missing_cols : Finset Label
  unexpected_cols : Finset Label
  read_error : Option Label
  best_schema : Option Label
  best_header_row : Option Nat
  best_score : Option Nat
deriving DecidableEq

/-- The initial `result` dictionary (lines 212-225). -/
def initResult (sheet : Label) : ScanResult :=
  ⟨sheet, false, none, none, none, [], ∅, ∅, none, none, none, none⟩

/-- The early-return `result.update` on a perfect match (lines 244-256). -/
def matchedResult (sheet : Label) (c : Cand) : ScanResult :=
  { sheet_name := sheet, matched := true, matched_schema := some c.schema_name,
    header_row := some c.offset, actual_headers := some c.headers,
    diffs := c.out.diffs, missing_cols := c.out.missing,
    unexpected_cols := c.out.unexpected, read_error := none,
    best_schema := none, best_header_row := none, best_score := none }

/-- The fall-through return of lines 270-284: report the running best (if
any), keeping the recorded first read error. -/
def finalize (sheet : Label) (ferr : Option Label) (best : Best) : ScanResult :=
  match best.schema with
  | some bs =>
    { sheet_name := sheet, matched := false, matched_schema := none, header_row := none,
      actual_headers := best.headers, diffs := best.diffs, missing_cols := best.missing,
      unexpected_cols := best.unexpected, read_error := ferr,
      best_schema := some bs, best_header_row := best.row, best_score := some best.score }
  | none => { initResult sheet with read_error := ferr }

/-- The inner schema loop of lines 242-268: try each schema in catalog order
against the row read at offset `o`; stop at the first match, otherwise thread
the best-candidate update. -/
def runSchemas (actual : List Label) (mode : Label) (o : Nat) :
    List (Label × List Label) → Best → Option Cand × Best
  | [], best => (none, best)
  | (n, e) :: rest, best =>
    let r := compare_header_lists e (some actual) mode
    if r.is_match then (some ⟨o, n, actual, r⟩, best)
    else runSchemas actual mode o rest (bestUpdate best ⟨o, n, actual, r⟩)

/-- A row provider: the abstraction of `read_headers(xls, sheet_name, r)`,
returning `(list[str] | None, error | None)`. -/
abbrev RowProvider := Nat → Option (List Label) × Option Label

/-- The outer offset loop of lines 229-284, over an explicit list of header
rows still to try, threading the first read error and the running best. -/
def scanGo (provider : RowProvider) (sheet : Label)
    (schemas : List (Label × List Label)) (mode : Label) :
    List Nat → Option Label → Best → ScanResult
  | [], ferr, best => finalize sheet ferr best
  | o :: rest, ferr, best =>
    match provider o with
    | (_, some e) =>
      scanGo provider sheet schemas mode rest
        (match ferr with | none => some e | some f => some f) best
    | (none, none) => scanGo provider sheet schemas mode rest ferr best
    | (some a, none) =>
      if a.isEmpty then scanGo provider sheet schemas mode rest ferr best
      else
        match runSchemas a mode o schemas best with
        | (some c, _) => matchedResult sheet c
        | (none, best') => scanGo provider sheet schemas mode rest ferr best'

/-- The `evaluate_sheet_against_schemas` function of `src/Streamlit_2.py`
(lines 193-284).  The sheet-reading closure is abstracted as `provider`, and
the module-level `SCHEMAS` catalog is passed as the `schemas` parameter. -/
def evaluate_sheet_against_schemas (provider : RowProvider) (sheet : Label)
    (schemas : List (Label × List Label)) (mode : Label) (try_rows : Nat) : ScanResult :=
  scanGo provider sheet schemas mode (List.range (try_rows + 1)) none initBest

/-- The candidates a scan generates at one offset: none if the read errored,
none if the row is absent or empty, otherwise one comparison per schema in
catalog order. -/
def offCandidates (provider : RowProvider) (schemas : List (Label × List Label))
    (mode : Label) (o : Nat) : List Cand :=
  match provider o with
  | (_, some _) => []
  | (none, none) => []
  | (some a, none) =>
    if a.isEmpty then []
    else schemas.map fun p => ⟨o, p.1, a, compare_header_lists p.2 (some a) mode⟩

/-- All candidates of a scan, in discovery order: increasing offset, and for
equal offset, catalog declaration order. -/
def candidates (provider : RowProvider) (schemas : List (Label × List Label))
    (mode : Label) : List Nat → List Cand
  | [] => []
  | o :: rest =>
    offCandidates provider schemas mode o ++ candidates provider schemas mode rest

/-- The first read error produced over a list of offsets. -/
def firstErr (provider : RowProvider) : List Nat → Option Label
  | [] => none
  | o :: rest =>
    match (provider o).2 with
    | some e => some e
    | none => firstErr provider rest

/-- Folding the best-candidate update over a list of candidates. -/
def foldBest (best : Best) : List Cand → Best
  | [] => best
  | c :: cs => foldBest (bestUpdate best c) cs

/-- The schema-usage bookkeeping of the workbook loop (lines 302-313):
the set of `matched_schema` values over the matched sheets. -/
def schemas_used (results : List ScanResult) : Finset (Option Label) :=
  ((results.filter fun r => r.matched).map fun r => r.matched_schema).toFinset

/-- The workbook-level verdict of lines 302-317: `all_sheets_pass` starts as
"every sheet matched" and is forced to `False` when the single-schema flag is
set and more than one schema was used. -/
def all_sheets_pass (results : List ScanResult) (single_schema_for_workbook : Bool) : Bool :=
  let base := results.all fun r => r.matched
  if base && single_schema_for_workbook && decide (1 < (schemas_used results).card) then false
  else base

/-- The head of `l` does not satisfy `p` (vacuously true for `[]`). -/
def headNo (p : Char → Bool) : List Char → Bool
  | [] => true
  | c :: _ => !p c

/-- No two adjacent characters of `l` both satisfy `p`. -/
def noTwo (p : Char → Bool) : List Char → Bool
  | [] => true
  | a :: l => ((!p a) || headNo p l) && noTwo p l

/-- Keep the previously recorded first error, otherwise adopt the new one:
the effect of line 233-234 on the running `read_error`. -/
def combineErr (f g : Option Label) : Option Label :=
  match f with
  | none => g
  | some x => some x

/-- The tie-break witness provider: one readable row at every offset. -/
def wProv : RowProvider := fun _ => (some [strL "a", strL "d"], none)

/-- The tie-break witness catalog: two schemas scoring equally against the
row supplied by `wProv`. -/
def wSchemas : List (Label × List Label) :=
  [(strL "A", [strL "a", strL "b"]), (strL "B", [strL "a", strL "c"])]

/-- The candidate produced by schema "A" at offset 0 of the witness scan. -/
def wCandA : Cand :=
  ⟨0, strL "A", [strL "a", strL "d"],
    compare_header_lists [strL "a", strL "b"] (some [strL "a", strL "d"]) lenientMode⟩

/-- The candidate produced by schema "B" at offset 0 of the witness scan. -/
def wCandB : Cand :=
  ⟨0, strL "B", [strL "a", strL "d"],
    compare_header_lists [strL "a", strL "c"] (some [strL "a", strL "d"]) lenientMode⟩

/-- Counterexample catalog: a single one-label schema. -/
def cxSchemas : List (Label × List Label) := [(strL "S", [strL "a"])]

/-- Counterexample provider family: offset 0 readably yields a row of `N`
columns all labelled "b", with no error; every other offset yields nothing. -/
def provN (N : Nat) : RowProvider :=
  fun o => if o = 0 then (some (List.replicate N (strL "b")), none) else (none, none)

/-- A matched scan result for the C7 witness, matched to "Schema 1". -/
def wr1 : ScanResult :=
  { initResult (strL "s1") with matched := true, matched_schema := some (strL "Schema 1") }

/-- A matched scan result for the C7 witness, matched to "Schema 2". -/
def wr2 : ScanResult :=
  { initResult (strL "s2") with matched := true, matched_schema := some (strL "Schema 2") }

/-! ### Theorems -/

theorem char_toNat_ofNat_valid (n : Nat) (h : n < 55296) : (Char.ofNat n).toNat = n := by
  have hv : n.isValidChar := Or.inl h
  simp [Char.ofNat, hv, Char.ofNatAux, Char.toNat, UInt32.toNat]

theorem toLowerCh_toNat_of_upper {c : Char} (h : 65 ≤ c.toNat ∧ c.toNat ≤ 90) :
    (toLowerCh c).toNat = c.toNat + 32 := by
  unfold toLowerCh
  rw [if_pos (by simp [h.1, h.2])]
  exact char_toNat_ofNat_valid _ (by omega)

theorem toLowerCh_eq_self {c : Char} (h : ¬(65 ≤ c.toNat ∧ c.toNat ≤ 90)) :
    toLowerCh c = c := by
  unfold toLowerCh
  rw [if_neg]
  simpa using h

theorem toLowerCh_idem (c : Char) : toLowerCh (toLowerCh c) = toLowerCh c := by
  by_cases h : 65 ≤ c.toNat ∧ c.toNat ≤ 90
  · have ht := toLowerCh_toNat_of_upper h
    apply toLowerCh_eq_self
    omega
  · rw [toLowerCh_eq_self h, toLowerCh_eq_self h]

theorem replNB_eq_self {c : Char} (h : c ≠ Char.ofNat 0xA0) : replNB c = c := by
  simp [replNB, h]

theorem isPyWS_replNB (c : Char) : isPyWS (replNB c) = isPyWS c := by
  by_cases h : c = Char.ofNat 0xA0
  · subst h; decide
  · rw [replNB_eq_self h]

theorem isWsU_replNB (c : Char) : isWsU (replNB c) = isWsU c := by
  by_cases h : c = Char.ofNat 0xA0
  · subst h; decide
  · rw [replNB_eq_self h]

theorem replNB_eq_self_of_not_isWsU {c : Char} (h : isWsU c = false) : replNB c = c := by
  by_cases hc : c = Char.ofNat 0xA0
  · subst hc; exact absurd h (by decide)
  · exact replNB_eq_self hc

theorem toLowerCh_replNB (c : Char) : toLowerCh (replNB c) = replNB (toLowerCh c) := by
  by_cases h : c = Char.ofNat 0xA0
  · subst h; decide
  · rw [replNB_eq_self h]
    by_cases hu : 65 ≤ c.toNat ∧ c.toNat ≤ 90
    · have ht := toLowerCh_toNat_of_upper hu
      have hne : toLowerCh c ≠ Char.ofNat 0xA0 := by
        intro he
        rw [he] at ht
        have h160 : (Char.ofNat 0xA0).toNat = 160 := by decide
        omega
      rw [replNB_eq_self hne]
    · rw [toLowerCh_eq_self hu, replNB_eq_self h]

theorem dropWhile_map' (p : Char → Bool) (f : Char → Char) (l : List Char) :
    (l.map f).dropWhile p = (l.dropWhile fun c => p (f c)).map f := by
  induction l with
  | nil => rfl
  | cons c rest ih =>
    by_cases h : p (f c) <;> simp [List.dropWhile_cons, h, ih]

theorem dropTrail_map (p : Char → Bool) (f : Char → Char) (l : List Char) :
    dropTrail p (l.map f) = (dropTrail (fun c => p (f c)) l).map f := by
  unfold dropTrail
  rw [← List.map_reverse, dropWhile_map', List.map_reverse]

theorem stripL_map_replNB (l : List Char) :
    stripL (l.map replNB) = (stripL l).map replNB := by
  have hp : (fun c => isPyWS (replNB c)) = isPyWS := funext isPyWS_replNB
  unfold stripL
  rw [dropWhile_map', hp, dropTrail_map, hp]

theorem map_lower_replNB (l : List Char) :
    (l.map replNB).map toLowerCh = (l.map toLowerCh).map replNB := by
  simp only [List.map_map]
  apply List.map_congr_left
  intro c _
  exact toLowerCh_replNB c

theorem collapseAux_map_replNB (p : Char → Bool) (hp : ∀ c, p (replNB c) = p c)
    (hfix : ∀ c, p c = false → replNB c = c) (l : List Char) (b : Bool) :
    collapseAux p (l.map replNB) b = collapseAux p l b := by
  induction l generalizing b with
  | nil => rfl
  | cons c rest ih =>
    simp only [List.map_cons, collapseAux, hp c]
    cases hpc : p c with
    | true => simp [ih]
    | false => simp [ih, hfix c hpc]

/-- Claim C4: `normalize` computes exactly the spec's seven-step pipeline, in
the spec's order (coerce; NBSP to space; trim; lower-case; collapse
whitespace-or-underscore runs; remove quotes and asterisks; collapse and trim
again).  Both sides are pure total functions, so the claim's purity,
totality and determinism are inherent in the embedding. -/
theorem normalize_follows_spec_pipeline (s : Label) : normalize_spec s = normalize s := by
  simp only [normalize_spec, normalize, collapseWith]
  rw [stripL_map_replNB, map_lower_replNB,
    collapseAux_map_replNB isWsU isWsU_replNB (fun c h => replNB_eq_self_of_not_isWsU h)]

theorem headNo_collapseAux_true (p : Char → Bool) (l : List Char) :
    headNo p (collapseAux p l true) = true := by
  induction l with
  | nil => rfl
  | cons c rest ih =>
    cases hpc : p c with
    | true => simpa [collapseAux, hpc] using ih
    | false => simp [collapseAux, hpc, headNo]

theorem noTwo_collapseAux (p : Char → Bool) (l : List Char) (b : Bool) :
    noTwo p (collapseAux p l b) = true := by
  induction l generalizing b with
  | nil => rfl
  | cons c rest ih =>
    cases hpc : p c with
    | true =>
      cases b with
      | true => simpa [collapseAux, hpc] using ih true
      | false =>
        simp only [collapseAux, hpc, if_pos, Bool.true_eq_false, if_neg, noTwo]
        simp [headNo_collapseAux_true, ih true]
    | false =>
      simp only [collapseAux, hpc, noTwo]
      simp [ih false]

theorem mem_collapseAux {p : Char → Bool} {l : List Char} {b : Bool} {c : Char}
    (h : c ∈ collapseAux p l b) : c = ' ' ∨ (c ∈ l ∧ p c = false) := by
  induction l generalizing b with
  | nil => simp [collapseAux] at h
  | cons a rest ih =>
    by_cases hpa : p a = true
    · simp only [collapseAux, hpa, if_pos] at h
      cases b with
      | true =>
        rcases ih h with h' | h'
        · exact Or.inl h'
        · exact Or.inr ⟨List.mem_cons_of_mem _ h'.1, h'.2⟩
      | false =>
        rcases List.mem_cons.mp h with h' | h'
        · exact Or.inl h'
        · rcases ih h' with h'' | h''
          · exact Or.inl h''
          · exact Or.inr ⟨List.mem_cons_of_mem _ h''.1, h''.2⟩
    · simp only [collapseAux, hpa, if_neg, Bool.not_eq_true] at h
      rcases List.mem_cons.mp h with h' | h'
      · subst h'
        exact Or.inr ⟨List.mem_cons_self _ _, Bool.not_eq_true _ ▸ (by simpa using hpa)⟩
      · rcases ih h' with h'' | h''
        · exact Or.inl h''
        · exact Or.inr ⟨List.mem_cons_of_mem _ h''.1, h''.2⟩

theorem collapseAux_fix (p : Char → Bool) (l : List Char)
    (hsp : ∀ c ∈ l, p c = true → c = ' ') (hnt : noTwo p l = true) :
    collapseAux p l false = l ∧ (headNo p l = true → collapseAux p l true = l) := by
  induction l with
  | nil => exact ⟨rfl, fun _ => rfl⟩
  | cons c rest ih =>
    have hnt' : noTwo p rest = true := by
      simp only [noTwo, Bool.and_eq_true] at hnt
      exact hnt.2
    have hsp' : ∀ d ∈ rest, p d = true → d = ' ' :=
      fun d hd => hsp d (List.mem_cons_of_mem _ hd)
    obtain ⟨ihf, iht⟩ := ih hsp' hnt'
    cases hpc : p c with
    | true =>
      have hc : c = ' ' := hsp c (List.mem_cons_self _ _) hpc
      have hhr : headNo p rest = true := by
        simp only [noTwo, Bool.and_eq_true, Bool.or_eq_true, hpc] at hnt
        rcases hnt.1 with h | h
        · simp at h
        · exact h
      constructor
      · simp only [collapseAux, hpc, if_pos]
        rw [iht hhr, hc]
        simp
      · intro hh
        simp only [headNo, hpc] at hh
        simp at hh
    | false =>
      constructor
      · simp only [collapseAux, hpc]
        simp [ihf]
      · intro _
        simp only [collapseAux, hpc]
        simp [ihf]

theorem collapseWith_fix (p : Char → Bool) (l : List Char)
    (hsp : ∀ c ∈ l, p c = true → c = ' ') (hnt : noTwo p l = true) :
    collapseWith p l = l :=
  (collapseAux_fix p l hsp hnt).1

theorem dropWhile_headNo (p : Char → Bool) (l : List Char) :
    headNo p (l.dropWhile p) = true := by
  induction l with
  | nil => rfl
  | cons c rest ih =>
    cases hpc : p c with
    | true => simpa [List.dropWhile_cons, hpc] using ih
    | false => simp [List.dropWhile_cons, hpc, headNo]

theorem dropWhile_eq_self_of_headNo {p : Char → Bool} {l : List Char}
    (h : headNo p l = true) : l.dropWhile p = l := by
  cases l with
  | nil => rfl
  | cons c rest =>
    simp only [headNo, Bool.not_eq_true'] at h
    simp [List.dropWhile_cons, h]

theorem dropWhile_idem (p : Char → Bool) (l : List Char) :
    (l.dropWhile p).dropWhile p = l.dropWhile p :=
  dropWhile_eq_self_of_headNo (dropWhile_headNo p l)

theorem dropTrail_idem (p : Char → Bool) (l : List Char) :
    dropTrail p (dropTrail p l) = dropTrail p l := by
  unfold dropTrail
  rw [List.reverse_reverse, dropWhile_idem]

theorem dropTrail_append (p : Char → Bool) (l : List Char) :
    dropTrail p l ++ (l.reverse.takeWhile p).reverse = l := by
  unfold dropTrail
  rw [← List.reverse_append, List.takeWhile_append_dropWhile, List.reverse_reverse]

theorem headNo_of_append {p : Char → Bool} {l t m : List Char} (h : l ++ t = m)
    (hm : headNo p m = true) : headNo p l = true := by
  cases l with
  | nil => rfl
  | cons a l' =>
    cases m with
    | nil => simp at h
    | cons b m' =>
      have : a = b := by
        have := congrArg (fun x => x.head?) h
        simpa using this
      subst this
      exact hm

theorem stripL_idem (l : List Char) : stripL (stripL l) = stripL l := by
  unfold stripL
  have h1 : headNo isPyWS (l.dropWhile isPyWS) = true := dropWhile_headNo _ _
  have h2 : headNo isPyWS (dropTrail isPyWS (l.dropWhile isPyWS)) = true :=
    headNo_of_append (dropTrail_append isPyWS (l.dropWhile isPyWS)) h1
  rw [dropWhile_eq_self_of_headNo h2, dropTrail_idem]

theorem mem_of_mem_dropWhile {p : Char → Bool} {l : List Char} {c : Char}
    (h : c ∈ l.dropWhile p) : c ∈ l := by
  have hd := List.takeWhile_append_dropWhile (p := p) (l := l)
  rw [← hd]
  exact List.mem_append_right _ h

theorem mem_of_mem_dropTrail {p : Char → Bool} {l : List Char} {c : Char}
    (h : c ∈ dropTrail p l) : c ∈ l := by
  unfold dropTrail at h
  rw [List.mem_reverse] at h
  have := mem_of_mem_dropWhile h
  rwa [List.mem_reverse] at this

theorem mem_of_mem_stripL {l : List Char} {c : Char} (h : c ∈ stripL l) : c ∈ l :=
  mem_of_mem_dropWhile (mem_of_mem_dropTrail h)

theorem noTwo_append_right {p : Char → Bool} {s t : List Char}
    (h : noTwo p (s ++ t) = true) : noTwo p t = true := by
  induction s with
  | nil => exact h
  | cons a s' ih =>
    simp only [List.cons_append, noTwo, Bool.and_eq_true] at h
    exact ih h.2

theorem noTwo_append_left {p : Char → Bool} {s t : List Char}
    (h : noTwo p (s ++ t) = true) : noTwo p s = true := by
  induction s with
  | nil => rfl
  | cons a s' ih =>
    simp only [List.cons_append, noTwo, Bool.and_eq_true, Bool.or_eq_true] at h ⊢
    refine ⟨?_, ih h.2⟩
    rcases h.1 with h' | h'
    · exact Or.inl h'
    · cases s' with
      | nil => exact Or.inr rfl
      | cons b s'' => exact Or.inr (by simpa [headNo] using h')

theorem noTwo_dropWhile (q p : Char → Bool) (l : List Char)
    (h : noTwo q l = true) : noTwo q (l.dropWhile p) = true := by
  apply noTwo_append_right (s := l.takeWhile p)
  rwa [List.takeWhile_append_dropWhile]

theorem noTwo_dropTrail (q p : Char → Bool) (l : List Char)
    (h : noTwo q l = true) : noTwo q (dropTrail p l) = true := by
  apply noTwo_append_left (t := (l.reverse.takeWhile p).reverse)
  rwa [dropTrail_append]

theorem noTwo_stripL (q : Char → Bool) (l : List Char)
    (h : noTwo q l = true) : noTwo q (stripL l) = true :=
  noTwo_dropTrail q isPyWS _ (noTwo_dropWhile q isPyWS l h)

theorem noTwo_congr {p q : Char → Bool} {l : List Char}
    (h : ∀ c ∈ l, p c = q c) : noTwo p l = noTwo q l := by
  induction l with
  | nil => rfl
  | cons a l' ih =>
    have hh : headNo p l' = headNo q l' := by
      cases l' with
      | nil => rfl
      | cons b l'' => simp [headNo, h b (by simp)]
    simp only [noTwo, h a (by simp), hh, ih fun c hc => h c (List.mem_cons_of_mem _ hc)]

theorem mem_collapseWith {p : Char → Bool} {l : List Char} {c : Char}
    (h : c ∈ collapseWith p l) : c = ' ' ∨ (c ∈ l ∧ p c = false) :=
  mem_collapseAux h

theorem normalize_mem {l : List Char} {c : Char} (h : c ∈ normalize l) :
    toLowerCh c = c ∧ (isWsU c = true → c = ' ') ∧ isQuoteStar c = false := by
  simp only [normalize] at h
  have h1 := mem_of_mem_stripL h
  rcases mem_collapseWith h1 with hc | ⟨hc4, _⟩
  · subst hc
    exact ⟨by decide, fun _ => rfl, by decide⟩
  · rw [List.mem_filter] at hc4
    obtain ⟨hc3, hq⟩ := hc4
    have hq' : isQuoteStar c = false := by simpa using hq
    rcases mem_collapseWith hc3 with hc | ⟨hc2, hwsu⟩
    · subst hc
      exact ⟨by decide, fun _ => rfl, by decide⟩
    · rw [List.mem_map] at hc2
      obtain ⟨d, _, hd⟩ := hc2
      subst hd
      exact ⟨toLowerCh_idem d, fun hw => by rw [hwsu] at hw; exact absurd hw (by simp), hq'⟩

theorem normalize_noTwo_WS (l : List Char) : noTwo isPyWS (normalize l) = true := by
  simp only [normalize]
  exact noTwo_stripL _ _ (noTwo_collapseAux isPyWS _ false)

theorem normalize_stripped (l : List Char) : stripL (normalize l) = normalize l := by
  simp only [normalize]
  exact stripL_idem _

/-- Claim C8: lenient normalization is idempotent. -/
theorem normalize_idem (s : Label) : normalize (normalize s) = normalize s := by
  set z := normalize s with hz
  have hmem : ∀ c ∈ z, toLowerCh c = c ∧ (isWsU c = true → c = ' ') ∧ isQuoteStar c = false :=
    fun c hc => normalize_mem hc
  have hnt : noTwo isPyWS z = true := normalize_noTwo_WS s
  have hntU : noTwo isWsU z = true := by
    have hpq : ∀ c ∈ z, isPyWS c = isWsU c := by
      intro c hc
      cases hw : isWsU c with
      | true =>
        have := (hmem c hc).2.1 hw
        subst this
        decide
      | false =>
        have : isPyWS c = false := by
          simp only [isWsU, Bool.or_eq_false_iff] at hw
          exact hw.1
        simp [this, hw]
    rw [← noTwo_congr hpq]
    exact hnt
  have hstrip : stripL z = z := normalize_stripped s
  have hlower : z.map toLowerCh = z := by
    have hid : ∀ c ∈ z, toLowerCh c = c := fun c hc => (hmem c hc).1
    rw [List.map_congr_left hid]
    simp
  have hc1 : collapseWith isWsU z = z :=
    collapseWith_fix _ _ (fun c hc h => (hmem c hc).2.1 h) hntU
  have hfil : z.filter (fun c => !(isQuoteStar c)) = z :=
    List.filter_eq_self.mpr fun c hc => by simp [(hmem c hc).2.2]
  have hc2 : collapseWith isPyWS z = z :=
    collapseWith_fix _ _ (fun c hc h => (hmem c hc).2.1 (by simp [isWsU, h])) hnt
  show normalize z = z
  simp only [normalize]
  rw [hstrip, hlower, hc1, hfil, hc2, hstrip]

theorem compare_some_is_match (e a : List Label) (m : Label) :
    (compare_header_lists e (some a) m).is_match =
      (((compare_header_lists e (some a) m).pos_mismatch_count == 0) &&
        ((compare_header_lists e (some a) m).missing.card == 0) &&
        ((compare_header_lists e (some a) m).unexpected.card == 0)) := by
  simp only [compare_header_lists]

/-- Claim C1: for every expected schema, every non-absent actual header row
and every mode, the mismatch score of the comparison equals
`|missing| + |unexpected| + position_mismatch_count`, and the score is `0`
exactly when the `matched` flag is true (which holds iff the positional
mismatch count is `0` and both sets are empty). -/
theorem score_eq_sum_and_zero_iff_matched (e a : List Label) (m : Label) :
    scoreOut (compare_header_lists e (some a) m) =
      (compare_header_lists e (some a) m).missing.card +
        (compare_header_lists e (some a) m).unexpected.card +
        (compare_header_lists e (some a) m).pos_mismatch_count ∧
    (scoreOut (compare_header_lists e (some a) m) = 0 ↔
      (compare_header_lists e (some a) m).is_match = true) := by
  refine ⟨rfl, ?_⟩
  rw [compare_some_is_match]
  simp only [scoreOut, score_mismatch, Bool.and_eq_true, beq_iff_eq]
  omega

/-- Instantiation of the C1 theorem at a concrete input: equal one-label rows
match with score zero. -/
theorem score_eq_sum_and_zero_iff_matched_witness :
    (compare_header_lists [strL "a"] (some [strL "a"]) exactMode).is_match = true :=
  (score_eq_sum_and_zero_iff_matched [strL "a"] [strL "a"] exactMode).2.mp (by decide)

/-- Claim C9: rows of different lengths can still match, because the
positional loop represents an out-of-range index by the literal "(none)":
expected `["(none)"]` against actual `["(none)", "(none)"]` yields zero
positional mismatches, empty sets and `matched = true`, in both modes. -/
theorem none_sentinel_collision_matches_unequal_lengths :
    ([strL "(none)"].length ≠ [strL "(none)", strL "(none)"].length) ∧
    (compare_header_lists [strL "(none)"] (some [strL "(none)", strL "(none)"]) exactMode).is_match
      = true ∧
    (compare_header_lists [strL "(none)"] (some [strL "(none)", strL "(none)"]) exactMode).pos_mismatch_count
      = 0 ∧
    (compare_header_lists [strL "(none)"] (some [strL "(none)", strL "(none)"]) exactMode).missing
      = ∅ ∧
    (compare_header_lists [strL "(none)"] (some [strL "(none)", strL "(none)"]) exactMode).unexpected
      = ∅ ∧
    (compare_header_lists [strL "(none)"] (some [strL "(none)", strL "(none)"]) lenientMode).is_match
      = true ∧
    (compare_header_lists [strL "(none)"] (some [strL "(none)", strL "(none)"]) lenientMode).pos_mismatch_count
      = 0 ∧
    (compare_header_lists [strL "(none)"] (some [strL "(none)", strL "(none)"]) lenientMode).missing
      = ∅ ∧
    (compare_header_lists [strL "(none)"] (some [strL "(none)", strL "(none)"]) lenientMode).unexpected
      = ∅ := by
  decide

/-- Claim C10: the comparator selects the Exact branch exactly when the mode
string starts with "Exact"; every other mode string, recognized or not,
silently selects the Lenient branch.  The mode parameter is never validated:
`compare_header_lists` is total over arbitrary mode strings. -/
theorem mode_prefix_selects_branch (e a : List Label) (m : Label) :
    ((strL "Exact").isPrefixOf m = true →
      compare_header_lists e (some a) m = compare_exact e a) ∧
    ((strL "Exact").isPrefixOf m = false →
      compare_header_lists e (some a) m = compare_lenient e a) := by
  constructor <;> intro h <;>
    simp only [compare_header_lists, compare_exact, compare_lenient, h] <;>
    simp

/-- Instantiation of the C10 theorem: the UI's Exact mode string selects the
Exact branch, and an arbitrary unrecognized mode string selects Lenient. -/
theorem mode_prefix_selects_branch_witness :
    compare_header_lists [strL "a"] (some [strL "a"]) exactMode =
      compare_exact [strL "a"] [strL "a"] ∧
    compare_header_lists [strL "a"] (some [strL "a"]) (strL "Banana") =
      compare_lenient [strL "a"] [strL "a"] :=
  ⟨(mode_prefix_selects_branch [strL "a"] [strL "a"] exactMode).1 (by decide),
   (mode_prefix_selects_branch [strL "a"] [strL "a"] (strL "Banana")).2 (by decide)⟩

/-- Claim C6: comparing any expected schema against an absent row, in any
mode, returns `matched = false`, exactly one diagnostic diff entry, empty
missing and unexpected sets, and score `10^9`; and that sentinel result
never wins the strict `<` best-candidate comparison against any running best
whose score is within the initial `10^9` bar (as every best produced from a
readable row is). -/
theorem absent_row_sentinel (e : List Label) (m : Label) :
    compare_header_lists e none m =
      ⟨false, [strL "❌ Unable to read headers."], ∅, ∅, 10 ^ 9⟩ ∧
    scoreOut (compare_header_lists e none m) = 10 ^ 9 ∧
    (compare_header_lists e none m).diffs.length = 1 ∧
    ∀ best : Best, best.score ≤ 10 ^ 9 →
      ∀ (o : Nat) (n : Label) (hs : List Label),
        bestUpdate best ⟨o, n, hs, compare_header_lists e none m⟩ = best := by
  refine ⟨rfl, ?_, rfl, ?_⟩
  · simp [scoreOut, compare_header_lists, score_mismatch]
  · intro best hb o n hs
    have hscore : scoreOf ⟨o, n, hs, compare_header_lists e none m⟩ = 10 ^ 9 := by
      simp [scoreOf, scoreOut, compare_header_lists, score_mismatch]
    simp only [bestUpdate, hscore]
    rw [if_neg (by omega)]

/-- Instantiation of the C6 theorem: the sentinel result does not displace
the initial best. -/
theorem absent_row_sentinel_witness :
    compare_header_lists [] none lenientMode =
      ⟨false, [strL "❌ Unable to read headers."], ∅, ∅, 10 ^ 9⟩ ∧
    bestUpdate initBest ⟨0, strL "S", [], compare_header_lists [] none lenientMode⟩ = initBest :=
  ⟨(absent_row_sentinel [] lenientMode).1,
   (absent_row_sentinel [] lenientMode).2.2.2 initBest (Nat.le_refl _) 0 (strL "S") []⟩

theorem combineErr_none_right (f : Option Label) : combineErr f none = f := by
  cases f <;> rfl

theorem combineErr_step (f : Option Label) (e : Label) (g : Option Label) :
    combineErr (combineErr f (some e)) g = combineErr f (some e) := by
  cases f <;> rfl

theorem foldBest_append (cs ds : List Cand) : ∀ best : Best,
    foldBest best (cs ++ ds) = foldBest (foldBest best cs) ds := by
  induction cs with
  | nil => intro best; rfl
  | cons c cs' ih =>
    intro best
    simp only [List.cons_append, foldBest]
    exact ih _

theorem foldBest_no_update {cs : List Cand} {best : Best}
    (h : ∀ c ∈ cs, ¬(scoreOf c < best.score)) : foldBest best cs = best := by
  induction cs with
  | nil => rfl
  | cons c cs' ih =>
    simp only [foldBest, bestUpdate, if_neg (h c (by simp))]
    exact ih fun d hd => h d (List.mem_cons_of_mem _ hd)

theorem mkBest_score (c : Cand) : (mkBest c).score = scoreOf c := rfl

theorem foldBest_cases (cs : List Cand) : ∀ best : Best,
    (foldBest best cs = best ∧ ∀ c ∈ cs, best.score ≤ scoreOf c) ∨
    (∃ c ∈ cs, foldBest best cs = mkBest c ∧ scoreOf c < best.score ∧
      ∀ d ∈ cs, scoreOf c ≤ scoreOf d) := by
  induction cs with
  | nil => intro best; exact Or.inl ⟨rfl, by simp⟩
  | cons c cs' ih =>
    intro best
    by_cases hc : scoreOf c < best.score
    · simp only [foldBest, bestUpdate, if_pos hc]
      rcases ih (mkBest c) with ⟨heq, hb⟩ | ⟨d, hd, heq, hlt, hb⟩
      · refine Or.inr ⟨c, by simp, heq, hc, ?_⟩
        intro d hd
        rcases List.mem_cons.mp hd with h | h
        · subst h; exact Nat.le_refl _
        · simpa [mkBest_score] using hb d h
      · refine Or.inr ⟨d, List.mem_cons_of_mem _ hd, heq, ?_, ?_⟩
        · rw [mkBest_score] at hlt; omega
        · intro d' hd'
          rcases List.mem_cons.mp hd' with h | h
          · subst h; rw [mkBest_score] at hlt; omega
          · exact hb d' h
    · simp only [foldBest, bestUpdate, if_neg hc]
      rcases ih best with ⟨heq, hb⟩ | ⟨d, hd, heq, hlt, hb⟩
      · refine Or.inl ⟨heq, ?_⟩
        intro d hd
        rcases List.mem_cons.mp hd with h | h
        · subst h; omega
        · exact hb d h
      · refine Or.inr ⟨d, List.mem_cons_of_mem _ hd, heq, hlt, ?_⟩
        intro d' hd'
        rcases List.mem_cons.mp hd' with h | h
        · subst h; omega
        · exact hb d' h

theorem foldBest_first_min (cpre cpost : List Cand) (c : Cand) : ∀ best : Best,
    scoreOf c < best.score →
    (∀ d ∈ cpre, scoreOf c < scoreOf d) →
    (∀ d ∈ cpost, scoreOf c ≤ scoreOf d) →
    foldBest best (cpre ++ c :: cpost) = mkBest c := by
  induction cpre with
  | nil =>
    intro best hlt _ hpost
    simp only [List.nil_append, foldBest, bestUpdate, if_pos hlt]
    exact foldBest_no_update fun d hd => by
      have := hpost d hd
      rw [mkBest_score]
      omega
  | cons d pre' ih =>
    intro best hlt hpre hpost
    simp only [List.cons_append, foldBest]
    apply ih
    · by_cases hd : scoreOf d < best.score
      · rw [bestUpdate, if_pos hd, mkBest_score]
        exact hpre d (by simp)
      · rw [bestUpdate, if_neg hd]
        exact hlt
    · intro d' hd'
      exact hpre d' (List.mem_cons_of_mem _ hd')
    · exact hpost

theorem runSchemas_nomatch (a : List Label) (m : Label) (o : Nat) :
    ∀ (schemas : List (Label × List Label)) (best : Best),
    (∀ p ∈ schemas, (compare_header_lists p.2 (some a) m).is_match = false) →
    runSchemas a m o schemas best =
      (none, foldBest best
        (schemas.map fun p => ⟨o, p.1, a, compare_header_lists p.2 (some a) m⟩)) := by
  intro schemas
  induction schemas with
  | nil => intro best _; rfl
  | cons p rest ih =>
    intro best h
    obtain ⟨n, e⟩ := p
    have h0 := h (n, e) (by simp)
    simp only at h0
    simp only [runSchemas, h0, Bool.false_eq_true, if_neg, List.map_cons, foldBest]
    exact ih _ fun q hq => h q (List.mem_cons_of_mem _ hq)

theorem runSchemas_match (a : List Label) (m : Label) (o : Nat)
    (s1 s2 : List (Label × List Label)) (n : Label) (e : List Label)
    (h1 : ∀ p ∈ s1, (compare_header_lists p.2 (some a) m).is_match = false)
    (h2 : (compare_header_lists e (some a) m).is_match = true) :
    ∀ best : Best,
    (runSchemas a m o (s1 ++ (n, e) :: s2) best).1 =
      some ⟨o, n, a, compare_header_lists e (some a) m⟩ := by
  induction s1 with
  | nil => intro best; simp [runSchemas, h2]
  | cons p rest ih =>
    intro best
    obtain ⟨n', e'⟩ := p
    have h0 := h1 (n', e') (by simp)
    simp only at h0
    simp only [List.cons_append, runSchemas, h0, Bool.false_eq_true, if_neg]
    exact ih (fun q hq => h1 q (List.mem_cons_of_mem _ hq)) _

theorem scanGo_nomatch (provider : RowProvider) (sheet : Label)
    (schemas : List (Label × List Label)) (mode : Label) :
    ∀ (offs : List Nat),
    (∀ c ∈ candidates provider schemas mode offs, c.out.is_match = false) →
    ∀ (ferr : Option Label) (best : Best),
      scanGo provider sheet schemas mode offs ferr best =
        finalize sheet (combineErr ferr (firstErr provider offs))
          (foldBest best (candidates provider schemas mode offs)) := by
  intro offs
  induction offs with
  | nil =>
    intro _ ferr best
    simp only [scanGo, candidates, firstErr, foldBest, combineErr_none_right]
  | cons o rest ih =>
    intro h ferr best
    have hc : candidates provider schemas mode (o :: rest) =
        offCandidates provider schemas mode o ++ candidates provider schemas mode rest := rfl
    rcases hp : provider o with ⟨ra, re⟩
    cases re with
    | some e2 =>
      have hoc : offCandidates provider schemas mode o = [] := by
        cases ra <;> simp [offCandidates, hp]
      have hfe : firstErr provider (o :: rest) = combineErr (some e2) (firstErr provider rest) := by
        simp [firstErr, hp, combineErr]
      have hcm : ∀ c ∈ candidates provider schemas mode rest, c.out.is_match = false :=
        fun c hcm => h c (by rw [hc]; exact List.mem_append_right _ hcm)
      cases ra <;> cases ferr <;>
        (simp only [scanGo, hp]
         rw [ih hcm _ best, hc, hoc, List.nil_append, hfe]
         rfl)
    | none =>
      cases ra with
      | none =>
        have hoc : offCandidates provider schemas mode o = [] := by simp [offCandidates, hp]
        have hfe : firstErr provider (o :: rest) = firstErr provider rest := by
          simp [firstErr, hp]
        simp only [scanGo, hp]
        rw [ih (fun c hcm => h c (by rw [hc]; exact List.mem_append_right _ hcm)) ferr best,
          hc, hoc, List.nil_append, hfe]
      | some a =>
        have hfe : firstErr provider (o :: rest) = firstErr provider rest := by
          simp [firstErr, hp]
        by_cases hae : a.isEmpty
        · have hoc : offCandidates provider schemas mode o = [] := by
            simp [offCandidates, hp, hae]
          simp only [scanGo, hp]
          rw [if_pos hae,
            ih (fun c hcm => h c (by rw [hc]; exact List.mem_append_right _ hcm)) ferr best,
            hc, hoc, List.nil_append, hfe]
        · have hoc : offCandidates provider schemas mode o =
              schemas.map fun p => ⟨o, p.1, a, compare_header_lists p.2 (some a) mode⟩ := by
            simp [offCandidates, hp, hae]
          have hnm : ∀ p ∈ schemas, (compare_header_lists p.2 (some a) mode).is_match = false := by
            intro p hps
            have : (⟨o, p.1, a, compare_header_lists p.2 (some a) mode⟩ : Cand) ∈
                candidates provider schemas mode (o :: rest) := by
              rw [hc, hoc]
              exact List.mem_append_left _ (List.mem_map.mpr ⟨p, hps, rfl⟩)
            exact h _ this
          simp only [scanGo, hp]
          rw [if_neg (by simp [hae])]
          rw [runSchemas_nomatch a mode o schemas best hnm]
          show scanGo provider sheet schemas mode rest ferr
              (foldBest best (schemas.map fun p =>
                ⟨o, p.1, a, compare_header_lists p.2 (some a) mode⟩)) = _
          rw [ih (fun c hcm => h c (by rw [hc]; exact List.mem_append_right _ hcm)) ferr _,
            hc, hoc, hfe, foldBest_append]

theorem scanGo_match (provider : RowProvider) (sheet : Label) (mode : Label)
    (s1 s2 : List (Label × List Label)) (n : Label) (e : List Label)
    (o : Nat) (a : List Label)
    (hp : provider o = (some a, none)) (hne : a.isEmpty = false)
    (h1 : ∀ p ∈ s1, (compare_header_lists p.2 (some a) mode).is_match = false)
    (h2 : (compare_header_lists e (some a) mode).is_match = true) :
    ∀ (offsPre offsPost : List Nat),
    (∀ o' ∈ offsPre, ∀ c ∈ offCandidates provider (s1 ++ (n, e) :: s2) mode o',
      c.out.is_match = false) →
    ∀ (ferr : Option Label) (best : Best),
      scanGo provider sheet (s1 ++ (n, e) :: s2) mode (offsPre ++ o :: offsPost) ferr best =
        matchedResult sheet ⟨o, n, a, compare_header_lists e (some a) mode⟩ := by
  intro offsPre
  induction offsPre with
  | nil =>
    intro offsPost _ ferr best
    simp only [List.nil_append, scanGo, hp]
    rw [if_neg (by simp [hne])]
    rcases hrs : runSchemas a mode o (s1 ++ (n, e) :: s2) best with ⟨fst, snd⟩
    have hfst := runSchemas_match a mode o s1 s2 n e h1 h2 best
    rw [hrs] at hfst
    simp only at hfst
    subst hfst
    rfl
  | cons o' pre' ih =>
    intro offsPost hpre ferr best
    have hpre' : ∀ o2 ∈ pre', ∀ c ∈ offCandidates provider (s1 ++ (n, e) :: s2) mode o2,
        c.out.is_match = false :=
      fun o2 ho2 => hpre o2 (List.mem_cons_of_mem _ ho2)
    have hpre0 := hpre o' (List.mem_cons_self _ _)
    rcases hp' : provider o' with ⟨ra, re⟩
    cases re with
    | some e2 =>
      cases ra <;> cases ferr <;>
        (simp only [List.cons_append, scanGo, hp']
         exact ih offsPost hpre' _ best)
    | none =>
      cases ra with
      | none =>
        simp only [List.cons_append, scanGo, hp']
        exact ih offsPost hpre' ferr best
      | some a' =>
        by_cases hae : a'.isEmpty
        · simp only [List.cons_append, scanGo, hp']
          rw [if_pos hae]
          exact ih offsPost hpre' ferr best
        · have hoc : offCandidates provider (s1 ++ (n, e) :: s2) mode o' =
              (s1 ++ (n, e) :: s2).map fun p =>
                ⟨o', p.1, a', compare_header_lists p.2 (some a') mode⟩ := by
            simp [offCandidates, hp', hae]
          have hnm : ∀ p ∈ s1 ++ (n, e) :: s2,
              (compare_header_lists p.2 (some a') mode).is_match = false := by
            intro p hps
            have : (⟨o', p.1, a', compare_header_lists p.2 (some a') mode⟩ : Cand) ∈
                offCandidates provider (s1 ++ (n, e) :: s2) mode o' := by
              rw [hoc]
              exact List.mem_map.mpr ⟨p, hps, rfl⟩
            exact hpre0 _ this
          simp only [List.cons_append, scanGo, hp']
          rw [if_neg (by simp [hae])]
          rw [runSchemas_nomatch a' mode o' _ best hnm]
          show scanGo provider sheet (s1 ++ (n, e) :: s2) mode (pre' ++ o :: offsPost) ferr
              (foldBest best ((s1 ++ (n, e) :: s2).map fun p =>
                ⟨o', p.1, a', compare_header_lists p.2 (some a') mode⟩)) = _
          exact ih offsPost hpre' ferr _

theorem range_split {o t : Nat} (h : o ≤ t) :
    List.range (t + 1) = List.range o ++ o :: List.range' (o + 1) (t - o) := by
  rw [List.range_eq_range', List.range_eq_range']
  have ht : t + 1 = t - o + 1 + o := by omega
  rw [ht, ← List.range'_append_1 0 o (t - o + 1)]
  congr 1
  rw [Nat.zero_add, List.range'_succ]

/-- Claim C2: if `(o, schema)` is the first offset/schema combination (in
increasing offset order, then catalog order) whose comparison matches, the
scan returns immediately with that schema, offset and comparison result.
The scan's result does not depend on the provider's behavior at offsets
greater than `o` (the provider is never consulted past the match), and the
inner schema loop's result at the matching row does not depend on the
schemas after the matching one (they are never compared). -/
theorem scan_short_circuits_on_first_match (provider : RowProvider) (sheet : Label)
    (mode : Label) (s1 s2 : List (Label × List Label)) (n : Label) (e : List Label)
    (try_rows o : Nat) (a : List Label)
    (hot : o ≤ try_rows)
    (hp : provider o = (some a, none)) (hne : a.isEmpty = false)
    (hpre : ∀ o' < o, ∀ c ∈ offCandidates provider (s1 ++ (n, e) :: s2) mode o',
      c.out.is_match = false)
    (h1 : ∀ p ∈ s1, (compare_header_lists p.2 (some a) mode).is_match = false)
    (h2 : (compare_header_lists e (some a) mode).is_match = true) :
    evaluate_sheet_against_schemas provider sheet (s1 ++ (n, e) :: s2) mode try_rows =
      matchedResult sheet ⟨o, n, a, compare_header_lists e (some a) mode⟩ ∧
    (∀ provider' : RowProvider, (∀ o2 ≤ o, provider' o2 = provider o2) →
      evaluate_sheet_against_schemas provider' sheet (s1 ++ (n, e) :: s2) mode try_rows =
        matchedResult sheet ⟨o, n, a, compare_header_lists e (some a) mode⟩) ∧
    (∀ (s2' : List (Label × List Label)) (best : Best),
      (runSchemas a mode o (s1 ++ (n, e) :: s2') best).1 =
        some ⟨o, n, a, compare_header_lists e (some a) mode⟩) := by
  have main : ∀ provider' : RowProvider, (∀ o2 ≤ o, provider' o2 = provider o2) →
      evaluate_sheet_against_schemas provider' sheet (s1 ++ (n, e) :: s2) mode try_rows =
        matchedResult sheet ⟨o, n, a, compare_header_lists e (some a) mode⟩ := by
    intro provider' hagree
    unfold evaluate_sheet_against_schemas
    rw [range_split hot]
    apply scanGo_match provider' sheet mode s1 s2 n e o a
      (by rw [hagree o (Nat.le_refl o)]; exact hp) hne h1 h2
    intro o' ho' c hc
    have hlt : o' < o := List.mem_range.mp ho'
    have : offCandidates provider' (s1 ++ (n, e) :: s2) mode o' =
        offCandidates provider (s1 ++ (n, e) :: s2) mode o' := by
      unfold offCandidates
      rw [hagree o' (Nat.le_of_lt hlt)]
    rw [this] at hc
    exact hpre o' hlt c hc
  exact ⟨main provider (fun _ _ => rfl), main,
    fun s2' best => runSchemas_match a mode o s1 s2' n e h1 h2 best⟩

/-- Instantiation of the C2 theorem: a catalog where the second schema
matches at offset 0; the scan returns it and is insensitive to the
provider's value at offset 1 and to the schemas after the match. -/
theorem scan_short_circuits_on_first_match_witness :
    evaluate_sheet_against_schemas
        (fun o => if o = 0 then (some [strL "b"], none) else (none, none))
        (strL "Sheet1") [(strL "A", [strL "a"]), (strL "B", [strL "b"])] exactMode 3 =
      matchedResult (strL "Sheet1")
        ⟨0, strL "B", [strL "b"],
          compare_header_lists [strL "b"] (some [strL "b"]) exactMode⟩ ∧
    evaluate_sheet_against_schemas
        (fun o => if o = 0 then (some [strL "b"], none) else (some [strL "a"], none))
        (strL "Sheet1") [(strL "A", [strL "a"]), (strL "B", [strL "b"])] exactMode 3 =
      matchedResult (strL "Sheet1")
        ⟨0, strL "B", [strL "b"],
          compare_header_lists [strL "b"] (some [strL "b"]) exactMode⟩ := by
  have h := scan_short_circuits_on_first_match
    (fun o => if o = 0 then (some [strL "b"], none) else (none, none))
    (strL "Sheet1") exactMode [(strL "A", [strL "a"])] [] (strL "B") [strL "b"]
    3 0 [strL "b"] (by omega) (by simp) (by decide)
    (by intro o' ho'; omega) (by decide) (by decide)
  refine ⟨h.1, ?_⟩
  apply h.2.1
  intro o2 ho2
  have : o2 = 0 := by omega
  subst this
  rfl

/-- Claim C3: in a scan with no exact match, the running best is replaced
only on strictly lower score, so the reported best candidate is the
earliest-discovered minimum-score candidate.  `candidates` enumerates the
comparisons in discovery order — increasing offset, and catalog declaration
order within an offset — so "earliest" means lower offset first, then
earlier catalog position, independent of any incidental enumeration order. -/
theorem scan_reports_earliest_lowest_score (provider : RowProvider) (sheet : Label)
    (schemas : List (Label × List Label)) (mode : Label) (try_rows : Nat)
    (cpre cpost : List Cand) (c : Cand)
    (hnm : ∀ d ∈ candidates provider schemas mode (List.range (try_rows + 1)),
      d.out.is_match = false)
    (hdec : candidates provider schemas mode (List.range (try_rows + 1)) = cpre ++ c :: cpost)
    (hsent : scoreOf c < 10 ^ 9)
    (hpre : ∀ d ∈ cpre, scoreOf c < scoreOf d)
    (hpost : ∀ d ∈ cpost, scoreOf c ≤ scoreOf d) :
    evaluate_sheet_against_schemas provider sheet schemas mode try_rows =
      { sheet_name := sheet, matched := false, matched_schema := none, header_row := none,
        actual_headers := some c.headers, diffs := c.out.diffs,
        missing_cols := c.out.missing, unexpected_cols := c.out.unexpected,
        read_error := firstErr provider (List.range (try_rows + 1)),
        best_schema := some c.schema_name, best_header_row := some c.offset,
        best_score := some (scoreOf c) } := by
  unfold evaluate_sheet_against_schemas
  rw [scanGo_nomatch provider sheet schemas mode _ hnm none initBest, hdec,
    foldBest_first_min cpre cpost c initBest hsent hpre hpost]
  rfl

/-- Instantiation of the C3 theorem: two schemas with identical score; the
one earlier in the catalog is reported as best. -/
theorem scan_reports_earliest_lowest_score_witness :
    (evaluate_sheet_against_schemas wProv (strL "S") wSchemas lenientMode 0).best_schema =
      some (strL "A") ∧
    (evaluate_sheet_against_schemas wProv (strL "S") wSchemas lenientMode 0).best_score =
      some (scoreOf wCandA) ∧
    scoreOf wCandA = scoreOf wCandB := by
  have h := scan_reports_earliest_lowest_score wProv (strL "S") wSchemas lenientMode 0
    [] [wCandB] wCandA (by decide) (by decide) (by decide) (by decide) (by decide)
  exact ⟨by rw [h]; try rfl, by rw [h]; try rfl, by decide⟩

/-- Claim C5, amended: in a scan with no exact match, the returned
`read_error` is the first error the provider produced (later errors never
overwrite it, and scanning continues); if some readable non-empty row
yielded a comparison scoring strictly below the `10^9` sentinel, the result
carries a minimum-score best candidate with `matched = false`; otherwise the
result is the initial one carrying only that first read error and no best
candidate. -/
theorem scan_nomatch_returns_best_or_first_error (provider : RowProvider) (sheet : Label)
    (schemas : List (Label × List Label)) (mode : Label) (try_rows : Nat)
    (hnm : ∀ d ∈ candidates provider schemas mode (List.range (try_rows + 1)),
      d.out.is_match = false) :
    (evaluate_sheet_against_schemas provider sheet schemas mode try_rows).read_error =
      firstErr provider (List.range (try_rows + 1)) ∧
    (evaluate_sheet_against_schemas provider sheet schemas mode try_rows).matched = false ∧
    ((∃ d ∈ candidates provider schemas mode (List.range (try_rows + 1)),
        scoreOf d < 10 ^ 9) →
      ∃ d ∈ candidates provider schemas mode (List.range (try_rows + 1)),
        (evaluate_sheet_against_schemas provider sheet schemas mode try_rows).best_schema =
          some d.schema_name ∧
        (evaluate_sheet_against_schemas provider sheet schemas mode try_rows).best_header_row =
          some d.offset ∧
        (evaluate_sheet_against_schemas provider sheet schemas mode try_rows).best_score =
          some (scoreOf d) ∧
        (evaluate_sheet_against_schemas provider sheet schemas mode try_rows).actual_headers =
          some d.headers ∧
        ∀ d' ∈ candidates provider schemas mode (List.range (try_rows + 1)),
          scoreOf d ≤ scoreOf d') ∧
    ((∀ d ∈ candidates provider schemas mode (List.range (try_rows + 1)),
        ¬(scoreOf d < 10 ^ 9)) →
      evaluate_sheet_against_schemas provider sheet schemas mode try_rows =
        { initResult sheet with
            read_error := firstErr provider (List.range (try_rows + 1)) }) := by
  have heval : evaluate_sheet_against_schemas provider sheet schemas mode try_rows =
      finalize sheet (firstErr provider (List.range (try_rows + 1)))
        (foldBest initBest (candidates provider schemas mode (List.range (try_rows + 1)))) := by
    unfold evaluate_sheet_against_schemas
    rw [scanGo_nomatch provider sheet schemas mode _ hnm none initBest]
    rfl
  rcases foldBest_cases (candidates provider schemas mode (List.range (try_rows + 1)))
      initBest with ⟨heq, hb⟩ | ⟨d, hd, heq, hlt, hb⟩
  · rw [heval, heq]
    refine ⟨rfl, rfl, ?_, fun _ => rfl⟩
    intro ⟨d, hd, hds⟩
    have := hb d hd
    rw [show initBest.score = 10 ^ 9 from rfl] at this
    omega
  · rw [heval, heq]
    refine ⟨rfl, rfl, ?_, ?_⟩
    · intro _
      exact ⟨d, hd, rfl, rfl, rfl, rfl, hb⟩
    · intro hall
      rw [show initBest.score = 10 ^ 9 from rfl] at hlt
      exact absurd hlt (hall d hd)

/-- Instantiation of the C5 theorem at a no-match scan with no read errors:
the result keeps no error and reports `matched = false`. -/
theorem scan_nomatch_returns_best_or_first_error_witness :
    (evaluate_sheet_against_schemas wProv (strL "S") wSchemas lenientMode 0).read_error =
      none ∧
    (evaluate_sheet_against_schemas wProv (strL "S") wSchemas lenientMode 0).matched =
      false := by
  have h := scan_nomatch_returns_best_or_first_error wProv (strL "S") wSchemas lenientMode 0
    (by decide)
  exact ⟨by rw [h.1]; decide, h.2.1⟩

theorem getD_replicate_lt {x d : Label} {n i : Nat} (h : i < n) :
    (List.replicate n x).getD i d = x := by
  rw [List.getD_eq_getElem?_getD, List.getElem?_replicate_of_lt h]
  rfl

theorem toFinset_replicate_pos {x : Label} : ∀ {n : Nat}, 0 < n →
    (List.replicate n x).toFinset = {x} := by
  intro n hn
  induction n with
  | zero => omega
  | succ m ih =>
    rw [List.replicate_succ, List.toFinset_cons]
    cases Nat.eq_zero_or_pos m with
    | inl h => subst h; simp
    | inr h => rw [ih h]; simp

theorem compare_monster_fields (N : Nat) (hN : 0 < N) :
    (compare_header_lists [strL "a"] (some (List.replicate N (strL "b")))
      lenientMode).pos_mismatch_count = N ∧
    (compare_header_lists [strL "a"] (some (List.replicate N (strL "b")))
      lenientMode).missing = {strL "a"} ∧
    (compare_header_lists [strL "a"] (some (List.replicate N (strL "b")))
      lenientMode).unexpected = {strL "b"} ∧
    (compare_header_lists [strL "a"] (some (List.replicate N (strL "b")))
      lenientMode).is_match = false := by
  have hex : (strL "Exact").isPrefixOf lenientMode = false := by decide
  have hmax : max ([strL "a"] : List Label).length (List.replicate N (strL "b")).length
      = N := by
    rw [List.length_replicate]
    simp only [List.length_cons, List.length_nil]
    omega
  have hall : ∀ pr ∈ (List.range N).map
      (posEntry (fun a b => normalize a == normalize b) [strL "a"]
        (List.replicate N (strL "b"))), (!pr.1) = true := by
    intro pr hpr
    rw [List.mem_map] at hpr
    obtain ⟨i, hi, hpr⟩ := hpr
    subst hpr
    simp only [posEntry]
    rw [getD_replicate_lt (List.mem_range.mp hi)]
    cases i with
    | zero => decide
    | succ j =>
      have he : ([strL "a"] : List Label).getD (j + 1) noneLabel = noneLabel := rfl
      rw [he]
      decide
  have hfil := List.filter_eq_self.mpr hall
  have hsets : (List.replicate N (strL "b")).map normalize
      = List.replicate N (strL "b") := by
    rw [List.map_replicate]
    have : normalize (strL "b") = strL "b" := by decide
    rw [this]
  have hpos : (compare_header_lists [strL "a"] (some (List.replicate N (strL "b")))
      lenientMode).pos_mismatch_count = N := by
    simp only [compare_header_lists, hex, Bool.false_eq_true, if_false]
    rw [hmax, hfil, List.length_map, List.length_range]
  have hmis : (compare_header_lists [strL "a"] (some (List.replicate N (strL "b")))
      lenientMode).missing = {strL "a"} := by
    simp only [compare_header_lists, hex, Bool.false_eq_true, if_false]
    rw [hsets, toFinset_replicate_pos hN]
    have hna : ([strL "a"] : List Label).map normalize = [strL "a"] := by decide
    rw [hna]
    decide
  have hune : (compare_header_lists [strL "a"] (some (List.replicate N (strL "b")))
      lenientMode).unexpected = {strL "b"} := by
    simp only [compare_header_lists, hex, Bool.false_eq_true, if_false]
    rw [hsets, toFinset_replicate_pos hN]
    have hna : ([strL "a"] : List Label).map normalize = [strL "a"] := by decide
    rw [hna]
    decide
  refine ⟨hpos, hmis, hune, ?_⟩
  have hm : (compare_header_lists [strL "a"] (some (List.replicate N (strL "b")))
      lenientMode).is_match =
      (((compare_header_lists [strL "a"] (some (List.replicate N (strL "b")))
          lenientMode).pos_mismatch_count == 0) &&
        ((compare_header_lists [strL "a"] (some (List.replicate N (strL "b")))
          lenientMode).missing.card == 0) &&
        ((compare_header_lists [strL "a"] (some (List.replicate N (strL "b")))
          lenientMode).unexpected.card == 0)) := compare_some_is_match _ _ _
  rw [hm, hpos]
  have : (N == 0) = false := by
    rw [beq_eq_false_iff_ne]
    omega
  rw [this]
  simp

theorem scanGo_cons_readable_nomatch (provider : RowProvider) (sheet : Label)
    (schemas : List (Label × List Label)) (mode : Label) (o : Nat) (rest : List Nat)
    (ferr : Option Label) (best : Best) (a : List Label) (best' : Best)
    (hp : provider o = (some a, none)) (hne : a.isEmpty = false)
    (hrs : runSchemas a mode o schemas best = (none, best')) :
    scanGo provider sheet schemas mode (o :: rest) ferr best =
      scanGo provider sheet schemas mode rest ferr best' := by
  simp only [scanGo, hp]
  rw [if_neg (by simp [hne]), hrs]

theorem scan_monster_general (N : Nat) (hN : 10 ^ 9 ≤ N) :
    evaluate_sheet_against_schemas (provN N) (strL "Sheet1") cxSchemas lenientMode 0 =
      initResult (strL "Sheet1") := by
  have h9 : (10 : Nat) ^ 9 = 1000000000 := by norm_num
  have h0 : 0 < N := by omega
  obtain ⟨hpos, hmis, hune, hnm⟩ := compare_monster_fields N h0
  have hne : List.replicate N (strL "b") ≠ [] := by
    intro h
    have h2 := congrArg List.length h
    rw [List.length_replicate, List.length_nil] at h2
    omega
  have hsc : scoreOf ⟨0, strL "S", List.replicate N (strL "b"),
      compare_header_lists [strL "a"] (some (List.replicate N (strL "b")))
        lenientMode⟩ = N + 2 := by
    show scoreOut _ = _
    unfold scoreOut score_mismatch
    rw [hpos, hmis, hune, Finset.card_singleton, Finset.card_singleton]
    omega
  have hbu : bestUpdate initBest ⟨0, strL "S", List.replicate N (strL "b"),
      compare_header_lists [strL "a"] (some (List.replicate N (strL "b")))
        lenientMode⟩ = initBest := by
    rw [bestUpdate, if_neg]
    rw [hsc]
    show ¬(N + 2 < initBest.score)
    rw [show initBest.score = 10 ^ 9 from rfl]
    omega
  have hrs : runSchemas (List.replicate N (strL "b")) lenientMode 0 cxSchemas initBest =
      (none, initBest) := by
    simp only [cxSchemas, runSchemas, hnm, Bool.false_eq_true, if_false]
    rw [hbu]
  unfold evaluate_sheet_against_schemas
  rw [show List.range (0 + 1) = [0] from rfl]
  rw [scanGo_cons_readable_nomatch (provN N) (strL "Sheet1") cxSchemas lenientMode 0 []
    none initBest (List.replicate N (strL "b")) initBest rfl
    (by rw [List.isEmpty_eq_false]; exact hne) hrs]
  rfl

/-- Counterexample to claim C5 as stated: the provider readably produces a
non-empty row at offset 0 and the scan finds no exact match, yet the
returned result carries no best candidate at all (and no read error),
because the row's comparison scores `10^9 + 2`, which fails the strict
comparison against the initial `10^9` sentinel. -/
theorem scan_monster_row_loses_best_candidate :
    provN (10 ^ 9) 0 = (some (List.replicate (10 ^ 9) (strL "b")), none) ∧
    List.replicate (10 ^ 9) (strL "b") ≠ [] ∧
    (evaluate_sheet_against_schemas (provN (10 ^ 9)) (strL "Sheet1") cxSchemas
      lenientMode 0).matched = false ∧
    (evaluate_sheet_against_schemas (provN (10 ^ 9)) (strL "Sheet1") cxSchemas
      lenientMode 0).best_schema = none ∧
    (evaluate_sheet_against_schemas (provN (10 ^ 9)) (strL "Sheet1") cxSchemas
      lenientMode 0).best_score = none ∧
    (evaluate_sheet_against_schemas (provN (10 ^ 9)) (strL "Sheet1") cxSchemas
      lenientMode 0).read_error = none ∧
    (evaluate_sheet_against_schemas (provN (10 ^ 9)) (strL "Sheet1") cxSchemas
      lenientMode 0).actual_headers = none := by
  have h := scan_monster_general (10 ^ 9) (Nat.le_refl _)
  have hne : List.replicate (10 ^ 9) (strL "b") ≠ [] := by
    intro hx
    have h2 := congrArg List.length hx
    rw [List.length_replicate, List.length_nil] at h2
    norm_num at h2
  refine ⟨rfl, hne, ?_, ?_, ?_, ?_, ?_⟩ <;> rw [h] <;> rfl

theorem schemas_used_card_le_one_iff (results : List ScanResult) :
    (schemas_used results).card ≤ 1 ↔
      ∀ r ∈ results, ∀ s ∈ results, r.matched = true → s.matched = true →
        r.matched_schema = s.matched_schema := by
  rw [Finset.card_le_one]
  constructor
  · intro h r hr s hs hrm hsm
    apply h
    · simp only [schemas_used, List.mem_toFinset, List.mem_map]
      exact ⟨r, List.mem_filter.mpr ⟨hr, hrm⟩, rfl⟩
    · simp only [schemas_used, List.mem_toFinset, List.mem_map]
      exact ⟨s, List.mem_filter.mpr ⟨hs, hsm⟩, rfl⟩
  · intro h a ha b hb
    simp only [schemas_used, List.mem_toFinset, List.mem_map] at ha hb
    obtain ⟨r, hr, hra⟩ := ha
    obtain ⟨s, hs, hsb⟩ := hb
    rw [List.mem_filter] at hr hs
    subst hra
    subst hsb
    exact h r hr.1 s hs.1 hr.2 hs.2

/-- Claim C7: the overall workbook verdict is true iff every sheet's scan
matched and (the require-same-schema flag is false or all matched sheets
share one schema name).  In particular, when all sheets match but two sheets
match different schemas and the flag is set, the verdict is false. -/
theorem all_sheets_pass_iff (results : List ScanResult) (flag : Bool) :
    all_sheets_pass results flag = true ↔
      ((∀ r ∈ results, r.matched = true) ∧
        (flag = false ∨ ∀ r ∈ results, ∀ s ∈ results,
          r.matched = true → s.matched = true →
            r.matched_schema = s.matched_schema)) := by
  simp only [all_sheets_pass]
  constructor
  · intro h
    split at h
    · exact absurd h (by simp)
    · rename_i hcond
      refine ⟨List.all_eq_true.mp h, ?_⟩
      rw [h] at hcond
      simp only [Bool.true_and] at hcond
      cases hf : flag with
      | false => exact Or.inl rfl
      | true =>
        rw [hf] at hcond
        simp only [Bool.true_and] at hcond
        right
        apply (schemas_used_card_le_one_iff results).mp
        simp only [decide_eq_true_eq] at hcond
        omega
  · intro hc
    obtain ⟨hall, hor⟩ := hc
    have hbase := List.all_eq_true.mpr hall
    rw [hbase]
    simp only [Bool.true_and]
    rcases hor with hf | hp
    · rw [hf]
      simp
    · have hle := (schemas_used_card_le_one_iff results).mpr hp
      have hd : decide (1 < (schemas_used results).card) = false :=
        decide_eq_false (by omega)
      rw [hd]
      simp

/-- Instantiation of the C7 theorem: both sheets matched, two different
schemas used, flag set: the overall verdict is false. -/
theorem all_sheets_pass_iff_witness : all_sheets_pass [wr1, wr2] true = false := by
  cases hb : all_sheets_pass [wr1, wr2] true with
  | false => rfl
  | true =>
    have h := (all_sheets_pass_iff [wr1, wr2] true).mp hb
    rcases h.2 with hf | hp
    · exact absurd hf (by simp)
    · have h12 := hp wr1 (by simp) wr2 (by simp) rfl rfl
      exact absurd h12 (by decide)

end HeaderCheck

